import Mathlib

/-!
Shallow embedding of the `@ts-cord/group` `Group` class.  The primary model
follows `src/unnamed/part_002` (the variant with the parameterized
`first`/`last`, `fallback` and `concact`); the `at`/`keyAt` pair of the
`src/group.ts` variant, which validates with `Number.isInteger` instead of
`typeof index === 'number'`, is embedded separately under `GroupTs`.

A JS `Map` is an insertion-ordered collection of key-value entries with
unique keys; the embedding carries the ordered entry list and models
`Map.set` (update in place for a present key, append for an absent one),
`Map.get`, `Map.has`, and the JS array operations `slice` and `at` that the
methods use.
-/

namespace TsCord

/-- Error raised by the library; the source has a single `GroupError` class
and the spec a single error kind `InvalidArgument`. -/
inductive GroupError where
  | invalidArgument
deriving DecidableEq

/-- A JS number: either an integer `int i`, or a non-integer number `frac t`
whose truncation toward zero is `t` (for example `1.5` is `frac 1`). -/
inductive JsNumber where
  | int (i : Int)
  | frac (t : Int)
deriving DecidableEq

/-- `ToIntegerOrInfinity` on a finite number: truncation toward zero. -/
def JsNumber.toIntTrunc : JsNumber → Int
  | .int i => i
  | .frac t => t

/-- Whether the number compares `> 1`.  A non-integer number with truncation
`t` lies strictly between `t` and `t + 1` when `t ≥ 0` (resp. `t - 1` and `t`
when `t < 0`), so it is `> 1` exactly when `t ≥ 1`. -/
def JsNumber.gtOne : JsNumber → Bool
  | .int i => 1 < i
  | .frac t => 1 ≤ t

/-- A JS value passed where the methods inspect `typeof`: `undefined`, a
number, or any non-number value (string, null, object, ...). -/
inductive JsVal where
  | undef
  | num (x : JsNumber)
  | other
deriving DecidableEq

/-- Result of `first`/`last`: a single (possibly `undefined`) value when the
amount is omitted or `≤ 1`, or an array of values. -/
inductive FirstLast (V : Type) where
  | one (v : Option V)
  | many (vs : List V)
deriving DecidableEq

/-- JS `Array.prototype.slice` index resolution: a negative index counts from
the end, and the result is clamped to `[0, len]`. -/
def clampIdx (len : Nat) (i : Int) : Nat :=
  if i < 0 then ((len : Int) + i).toNat else min i.toNat len

/-- JS `Array.prototype.slice(start, stop)` on a list. -/
def jsSlice {α : Type} (l : List α) (start stop : Int) : List α :=
  (l.drop (clampIdx l.length start)).take (clampIdx l.length stop - clampIdx l.length start)

/-- JS `Array.prototype.slice(start)`: one-argument form, `stop` defaults to
the length. -/
def jsSliceFrom {α : Type} (l : List α) (start : Int) : List α :=
  jsSlice l start (l.length : Int)

/-- JS `Array.prototype.at(i)` for an already-truncated integer index: a
negative index counts from the end; out of range gives `undefined`. -/
def jsAt {α : Type} (l : List α) (i : Int) : Option α :=
  let j := if i < 0 then (l.length : Int) + i else i
  if j < 0 then none else l[j.toNat]?

/-- The `Group` container (`class Group<K, V> extends Map<K, V>`): the ordered
entry list of the underlying JS `Map`. -/
structure Group (K V : Type) where
  entries : List (K × V)
deriving DecidableEq

variable {K V W : Type} [DecidableEq K]

/-- `Map.size`. -/
def Group.size (g : Group K V) : Nat := g.entries.length

/-- `[...this.keys()]`. -/
def Group.keysList (g : Group K V) : List K := g.entries.map Prod.fst

/-- `[...this.values()]`. -/
def Group.valuesList (g : Group K V) : List V := g.entries.map Prod.snd

/-- `Map.has`. -/
def Group.has (g : Group K V) (k : K) : Bool := g.entries.any (fun e => e.1 == k)

/-- `Map.get` (`undefined` is `none`). -/
def Group.get? (g : Group K V) (k : K) : Option V :=
  (g.entries.find? (fun e => e.1 == k)).map Prod.snd

/-- `Map.set`: a present key keeps its position and gets the new value, an
absent key is appended at the end. -/
def Group.set (g : Group K V) (k : K) (v : V) : Group K V :=
  if g.has k then ⟨g.entries.map (fun e => if e.1 == k then (k, v) else e)⟩
  else ⟨g.entries ++ [(k, v)]⟩

/-- `each(fn)`: invokes `fn` on every entry (no effect in a pure model) and
returns the group itself. -/
def Group.each (g : Group K V) (_fn : V → K → Unit) : Group K V := g

/-- `find(fn)`: first value where `fn` is truthy. -/
def Group.find (g : Group K V) (fn : V → K → Bool) : Option V :=
  (g.entries.find? (fun e => fn e.2 e.1)).map Prod.snd

/-- `findKey(fn)`: first key where `fn` is truthy. -/
def Group.findKey (g : Group K V) (fn : V → K → Bool) : Option K :=
  (g.entries.find? (fun e => fn e.2 e.1)).map Prod.fst

/-- `filter(fn)`: builds a new group, `set`ting each passing entry in
iteration order. -/
def Group.filter (g : Group K V) (fn : V → K → Bool) : Group K V :=
  g.entries.foldl (fun acc e => if fn e.2 e.1 then acc.set e.1 e.2 else acc) (Group.mk [])

/-- `map(fn)`: builds a new group, `set`ting each key with the mapped value in
iteration order. -/
def Group.map (g : Group K V) (fn : V → K → W) : Group K W :=
  g.entries.foldl (fun acc e => acc.set e.1 (fn e.2 e.1)) (Group.mk [])

/-- `every(fn)`. -/
def Group.every (g : Group K V) (fn : V → K → Bool) : Bool :=
  g.entries.all (fun e => fn e.2 e.1)

/-- `some(fn)`. -/
def Group.some (g : Group K V) (fn : V → K → Bool) : Bool :=
  g.entries.any (fun e => fn e.2 e.1)

/-- `hasAll(keys)`. -/
def Group.hasAll (g : Group K V) (keys : List K) : Bool :=
  keys.all (fun k => g.has k)

/-- `hasAny(keys)`. -/
def Group.hasAny (g : Group K V) (keys : List K) : Bool :=
  keys.any (fun k => g.has k)

/-- `first(amount?)` of part_002: when `amount` is a number `> 1` it returns
`values.slice(0, amount)`, otherwise (including any non-number argument) it
returns `values[0]`. -/
def Group.first (g : Group K V) (amount : JsVal) : FirstLast V :=
  match amount with
  | .num x =>
      if x.gtOne then .many (jsSlice g.valuesList 0 x.toIntTrunc)
      else .one g.valuesList.head?
  | _ => .one g.valuesList.head?

/-- `last(amount?)` of part_002: when `amount` is a number `> 1` it returns
`values.slice(values.length - amount)`, otherwise it returns
`values[values.length - 1]`. -/
def Group.last (g : Group K V) (amount : JsVal) : FirstLast V :=
  match amount with
  | .num x =>
      if x.gtOne then .many (jsSliceFrom g.valuesList ((g.valuesList.length : Int) - x.toIntTrunc))
      else .one g.valuesList.getLast?
  | _ => .one g.valuesList.getLast?

/-- `sweep(fn)`: deletes the entries satisfying `fn` during one pass over the
map.  Deleting the currently visited key of a JS `Map` iterator affects no
later entry, so the pass removes exactly the satisfying entries and keeps the
others in their relative order. -/
def Group.sweep (g : Group K V) (fn : V → K → Bool) : Group K V :=
  ⟨g.entries.filter (fun e => !(fn e.2 e.1))⟩

/-- `at(index)` of part_002: throws unless `typeof index === 'number'`, then
returns `[...this.values()].at(index)` (which truncates a fractional index). -/
def Group.«at» (g : Group K V) (index : JsVal) : Except GroupError (Option V) :=
  match index with
  | .num x => .ok (jsAt g.valuesList x.toIntTrunc)
  | _ => .error .invalidArgument

/-- `keyAt(index)` of part_002: same validation as `at`, over the keys. -/
def Group.keyAt (g : Group K V) (index : JsVal) : Except GroupError (Option K) :=
  match index with
  | .num x => .ok (jsAt g.keysList x.toIntTrunc)
  | _ => .error .invalidArgument

/-- `at(index)` of the `src/group.ts` variant: throws unless
`Number.isInteger(index)` holds (so fractional numbers are rejected too). -/
def GroupTs.«at» (g : Group K V) (index : JsVal) : Except GroupError (Option V) :=
  match index with
  | .num (.int i) => .ok (jsAt g.valuesList i)
  | _ => .error .invalidArgument

/-- `keyAt(index)` of the `src/group.ts` variant. -/
def GroupTs.keyAt (g : Group K V) (index : JsVal) : Except GroupError (Option K) :=
  match index with
  | .num (.int i) => .ok (jsAt g.keysList i)
  | _ => .error .invalidArgument

/-- `fallback(key, generator)`: returns the existing value when the key is
present, otherwise `this.set(key, generator(key, this)).get(key)`.  The third
component counts how many times the generator was invoked during the call
(the JS method returns only the value; the group and the count make the side
effects explicit). -/
def Group.fallback (g : Group K V) (k : K) (gen : K → Group K V → V) :
    Option V × Group K V × Nat :=
  if g.has k then (g.get? k, g, 0)
  else
    let g2 := g.set k (gen k g)
    (g2.get? k, g2, 1)

/-- `concact(...groups)` (source spelling): `set`s every entry of every
argument group into `this`, in argument order. -/
def Group.concact (g : Group K V) (groups : List (Group K V)) : Group K V :=
  groups.foldl (fun acc h => h.entries.foldl (fun a e => a.set e.1 e.2) acc) g

/-- `each` behind its `typeof fn !== 'function'` guard: a `none` argument
models a non-callable value.  The second component is the state of the group
after the call. -/
def Group.eachRun (g : Group K V) (fn : Option (V → K → Unit)) :
    Except GroupError (Group K V) × Group K V :=
  match fn with
  | .none => (.error .invalidArgument, g)
  | .some f => (.ok (g.each f), g.each f)

/-- `find` behind its guard. -/
def Group.findRun (g : Group K V) (fn : Option (V → K → Bool)) :
    Except GroupError (Option V) :=
  match fn with
  | .none => .error .invalidArgument
  | .some f => .ok (g.find f)

/-- `filter` behind its guard. -/
def Group.filterRun (g : Group K V) (fn : Option (V → K → Bool)) :
    Except GroupError (Group K V) :=
  match fn with
  | .none => .error .invalidArgument
  | .some f => .ok (g.filter f)

/-- `map` behind its guard. -/
def Group.mapRun (g : Group K V) (fn : Option (V → K → W)) :
    Except GroupError (Group K W) :=
  match fn with
  | .none => .error .invalidArgument
  | .some f => .ok (g.map f)

/-- `findKey` behind its guard. -/
def Group.findKeyRun (g : Group K V) (fn : Option (V → K → Bool)) :
    Except GroupError (Option K) :=
  match fn with
  | .none => .error .invalidArgument
  | .some f => .ok (g.findKey f)

/-- `every` behind its guard. -/
def Group.everyRun (g : Group K V) (fn : Option (V → K → Bool)) :
    Except GroupError Bool :=
  match fn with
  | .none => .error .invalidArgument
  | .some f => .ok (g.every f)

/-- `some` behind its guard. -/
def Group.someRun (g : Group K V) (fn : Option (V → K → Bool)) :
    Except GroupError Bool :=
  match fn with
  | .none => .error .invalidArgument
  | .some f => .ok (g.some f)

/-- `sweep` behind its guard; the second component is the state of the group
after the call (unchanged when the guard throws). -/
def Group.sweepRun (g : Group K V) (fn : Option (V → K → Bool)) :
    Except GroupError (Group K V) × Group K V :=
  match fn with
  | .none => (.error .invalidArgument, g)
  | .some f => (.ok (g.sweep f), g.sweep f)

/-- `fallback` behind its `typeof generator !== 'function'` guard; the second
component is the state of the group after the call. -/
def Group.fallbackRun (g : Group K V) (k : K) (gen : Option (K → Group K V → V)) :
    Except GroupError (Option V) × Group K V :=
  match gen with
  | .none => (.error .invalidArgument, g)
  | .some f => (.ok (g.fallback k f).1, (g.fallback k f).2.1)

/-- Concrete group for the C1 evaluation. -/
def gC1 : Group Nat Nat := ⟨[(1, 10), (2, 20), (3, 30)]⟩

/-- Concrete group for the C2 evaluation. -/
def gC2 : Group Nat Nat := ⟨[(1, 10), (2, 20)]⟩

/-- Concrete group for the C3 witness (the `sweep` example of the source). -/
def gC3 : Group Nat Nat := ⟨[(1, 10), (2, 15), (3, 20)]⟩

/-- Concrete receiver for the C5 witness (the spec scenario `{a: 1}`). -/
def gC5a : Group Nat Nat := ⟨[(0, 1)]⟩

/-- Concrete argument for the C5 witness (the spec scenario `{a: 2, b: 3}`). -/
def gC5b : Group Nat Nat := ⟨[(0, 2), (1, 3)]⟩

/-- Concrete group for the C8 witness. -/
def gC8 : Group Nat Nat := ⟨[(1, 10), (2, 20)]⟩

/-- Concrete group for the C10 witness. -/
def gC10 : Group Nat Nat := ⟨[(1, 10)]⟩

theorem Option.map_or' {α β : Type} (f : α → β) (o o' : Option α) :
    (o.or o').map f = (o.map f).or (o'.map f) := by
  cases o <;> rfl

theorem find?_map_update_ne (l : List (K × V)) (k k' : K) (v : V) (hk : ¬k' = k) :
    ((l.map (fun e => if e.1 == k then (k, v) else e)).find? (fun e => e.1 == k')).map Prod.snd
      = (l.find? (fun e => e.1 == k')).map Prod.snd := by
  have hp : ((fun e : K × V => e.1 == k') ∘ (fun e : K × V => if e.1 == k then (k, v) else e))
      = fun e : K × V => e.1 == k' := by
    funext e
    by_cases he : e.1 = k <;> simp [he, Function.comp, Ne.symm hk]
  rw [List.find?_map, hp]
  cases hfind : l.find? (fun e => e.1 == k') with
  | none => simp
  | some e0 =>
    have hpe := List.find?_some hfind
    have h0 : e0.1 = k' := by simpa using hpe
    simp [h0, hk]

theorem find?_map_update_self (l : List (K × V)) (k : K) (v : V)
    (h : l.any (fun e => e.1 == k) = true) :
    ((l.map (fun e => if e.1 == k then (k, v) else e)).find? (fun e => e.1 == k)).map Prod.snd
      = Option.some v := by
  have hp : ((fun e : K × V => e.1 == k) ∘ (fun e : K × V => if e.1 == k then (k, v) else e))
      = fun e : K × V => e.1 == k := by
    funext e
    by_cases he : e.1 = k <;> simp [he, Function.comp]
  rw [List.find?_map, hp]
  cases hfind : l.find? (fun e => e.1 == k) with
  | none =>
    rw [List.find?_eq_none] at hfind
    obtain ⟨e0, hm, hp0⟩ := List.any_eq_true.mp h
    exact absurd hp0 (hfind e0 hm)
  | some e0 =>
    have hpe := List.find?_some hfind
    have h0 : e0.1 = k := by simpa using hpe
    simp [h0]

theorem Group.get?_set (g : Group K V) (k k' : K) (v : V) :
    (g.set k v).get? k' = if k' = k then Option.some v else g.get? k' := by
  by_cases h : g.has k
  · rw [Group.set, if_pos h]
    by_cases hk : k' = k
    · subst hk
      rw [if_pos rfl]
      rw [Group.has] at h
      simpa [Group.get?] using find?_map_update_self g.entries k' v h
    · rw [if_neg hk]
      simpa [Group.get?] using find?_map_update_ne g.entries k k' v hk
  · rw [Group.set, if_neg h]
    have hfind : g.entries.find? (fun e => e.1 == k) = none := by
      rw [List.find?_eq_none]
      intro e he hek
      exact h (by rw [Group.has]; exact List.any_eq_true.mpr ⟨e, he, hek⟩)
    by_cases hk : k' = k
    · subst hk
      rw [if_pos rfl]
      simp [Group.get?, List.find?_append, hfind, List.find?_cons]
    · rw [if_neg hk]
      have h2 : List.find? (fun e => e.1 == k') [(k, v)] = none := by
        simp [List.find?_cons, Ne.symm hk]
      simp [Group.get?, List.find?_append, h2, Option.or_none]

theorem Group.isSome_get? (g : Group K V) (k : K) :
    (g.get? k).isSome = g.has k := by
  rw [Group.get?, Group.has]
  cases hfind : List.find? (fun e => e.1 == k) g.entries with
  | none =>
    have hall := List.find?_eq_none.mp hfind
    simp only [Option.map_none', Option.isSome_none]
    rw [eq_comm]
    exact List.any_eq_false.mpr hall
  | some e =>
    have hpe := List.find?_some hfind
    simp only [Option.map_some', Option.isSome_some]
    rw [eq_comm]
    exact List.any_eq_true.mpr ⟨e, List.mem_of_find?_eq_some hfind, hpe⟩

theorem Group.has_set_self (g : Group K V) (k : K) (v : V) :
    (g.set k v).has k = true := by
  rw [← Group.isSome_get?, Group.get?_set]
  simp

theorem Group.set_entries_of_not_has (g : Group K V) (k : K) (v : V)
    (h : g.has k = false) :
    (g.set k v).entries = g.entries ++ [(k, v)] := by
  simp [Group.set, h]

theorem foldl_set_get? (l : List (K × V)) (acc : Group K V) (k : K) :
    (l.foldl (fun a e => a.set e.1 e.2) acc).get? k
      = ((l.reverse.find? (fun e => e.1 == k)).map Prod.snd).or (acc.get? k) := by
  induction l generalizing acc with
  | nil => simp
  | cons e tl ih =>
    rw [List.foldl_cons, ih, List.reverse_cons, List.find?_append,
      Option.map_or', Option.or_assoc]
    have hsingle : ((List.find? (fun e => e.1 == k) [e]).map Prod.snd).or (acc.get? k)
        = (acc.set e.1 e.2).get? k := by
      rw [Group.get?_set]
      by_cases hk : e.1 = k
      · rw [if_pos hk.symm]
        simp [List.find?_cons, hk]
      · rw [if_neg (fun hc => hk hc.symm)]
        simp [List.find?_cons, hk]
    rw [hsingle]

theorem reverse_find?_of_nodup (l : List (K × V)) (k : K)
    (h : (l.map Prod.fst).Nodup) :
    l.reverse.find? (fun e => e.1 == k) = l.find? (fun e => e.1 == k) := by
  induction l with
  | nil => rfl
  | cons e tl ih =>
    simp only [List.map_cons, List.nodup_cons] at h
    rw [List.reverse_cons, List.find?_append, ih h.2]
    by_cases hk : e.1 = k
    · have hnone : tl.find? (fun e => e.1 == k) = none := by
        rw [List.find?_eq_none]
        intro x hx hpx
        exact h.1 (by
          have : x.1 = k := by simpa using hpx
          rw [← hk] at this
          exact this ▸ List.mem_map_of_mem Prod.fst hx)
      simp [hnone, List.find?_cons, hk]
    · simp [List.find?_cons, hk, Option.or_none]

theorem foldl_set_fresh (l : List (K × V)) (acc : Group K V)
    (h1 : ∀ e ∈ l, acc.has e.1 = false) (h2 : (l.map Prod.fst).Nodup) :
    (l.foldl (fun a e => a.set e.1 e.2) acc).entries = acc.entries ++ l := by
  induction l generalizing acc with
  | nil => simp
  | cons e tl ih =>
    simp only [List.map_cons, List.nodup_cons] at h2
    have he : acc.has e.1 = false := h1 e (List.mem_cons_self e tl)
    have hset : (acc.set e.1 e.2).entries = acc.entries ++ [(e.1, e.2)] :=
      Group.set_entries_of_not_has acc e.1 e.2 he
    have h1' : ∀ x ∈ tl, (acc.set e.1 e.2).has x.1 = false := by
      intro x hx
      have hx1 : acc.has x.1 = false := h1 x (List.mem_cons_of_mem e hx)
      have hne : (e.1 == x.1) = false := by
        simp only [beq_eq_false_iff_ne, ne_eq]
        intro hc
        exact h2.1 (hc ▸ List.mem_map_of_mem Prod.fst hx)
      rw [Group.has, hset, List.any_append]
      rw [Group.has] at hx1
      simp [hx1, hne]
    rw [List.foldl_cons, ih _ h1' h2.2, hset, List.append_assoc]
    rfl

theorem Group.every_set (g : Group K V) (p : V → K → Bool) (k : K) (v : V)
    (hg : g.every p = true) (hv : p v k = true) :
    (g.set k v).every p = true := by
  rw [Group.every, List.all_eq_true]
  rw [Group.every, List.all_eq_true] at hg
  intro x hx
  rw [Group.set] at hx
  by_cases h : g.has k
  · rw [if_pos h] at hx
    simp only [List.mem_map] at hx
    obtain ⟨e, he, rfl⟩ := hx
    by_cases hek : e.1 = k
    · simpa [hek] using hv
    · simpa [hek] using hg e he
  · rw [if_neg h] at hx
    simp only [List.mem_append, List.mem_singleton] at hx
    rcases hx with hx | hx
    · exact hg x hx
    · subst hx
      simpa using hv

theorem length_filter_not_add {α : Type} (p : α → Bool) (l : List α) :
    (l.filter (fun a => !(p a))).length + (l.filter p).length = l.length := by
  induction l with
  | nil => rfl
  | cons a tl ih =>
    cases hp : p a <;> simp [List.filter_cons, hp] <;> omega

theorem filter_every_aux (p : V → K → Bool) (l : List (K × V)) (acc : Group K V)
    (hacc : acc.every p = true) :
    (l.foldl (fun a e => if p e.2 e.1 then a.set e.1 e.2 else a) acc).every p = true := by
  induction l generalizing acc with
  | nil => simpa using hacc
  | cons e tl ih =>
    rw [List.foldl_cons]
    by_cases hp : p e.2 e.1 = true
    · rw [if_pos hp]
      exact ih _ (Group.every_set acc p e.1 e.2 hacc hp)
    · rw [if_neg hp]
      exact ih _ hacc

/-- C1: evaluation at the failing input.  On the three-entry group `gC1`
(values `[10, 20, 30]`), `first 4` returns the `min(4, 3) = 3` leading values
as the claim states, but `last 4` returns only `[30]` — one value instead of
the last three — because `values.slice(values.length - amount)` passes a
negative start index to JS `slice`, which counts it from the end of the
array.  -/
theorem last_amount_wraps_negative_start :
    gC1.first (JsVal.num (JsNumber.int 4)) = FirstLast.many [10, 20, 30] ∧
    gC1.last (JsVal.num (JsNumber.int 4)) = FirstLast.many [30] :=
  ⟨rfl, rfl⟩

/-- C2: evaluation at the failing input.  In the part_002 variant, `at(1.5)`
(a non-integer number, modelled as `frac 1`) does not raise: the `typeof`
guard passes and `Array.at` truncates the index, silently returning the
second value; `keyAt(1.5)` behaves the same.  The `src/group.ts` variant
rejects the same input with `InvalidArgument`, as the claim states. -/
theorem at_accepts_fractional_number :
    gC2.«at» (JsVal.num (JsNumber.frac 1)) = Except.ok (Option.some 20) ∧
    gC2.keyAt (JsVal.num (JsNumber.frac 1)) = Except.ok (Option.some 2) ∧
    GroupTs.«at» gC2 (JsVal.num (JsNumber.frac 1))
      = Except.error GroupError.invalidArgument ∧
    GroupTs.keyAt gC2 (JsVal.num (JsNumber.frac 1))
      = Except.error GroupError.invalidArgument :=
  ⟨rfl, rfl, rfl, rfl⟩

/-- C3: after `sweep p`, no entry satisfies `p` (`some p` is false), the size
drops by exactly the number of original entries satisfying `p`, and the
surviving entries are a sublist of the original entries (original relative
order) containing every non-satisfying entry; the method returns the swept
group itself. -/
theorem sweep_spec (g : Group K V) (p : V → K → Bool) :
    (g.sweep p).some p = false ∧
    (g.sweep p).size + (g.entries.filter (fun e => p e.2 e.1)).length = g.size ∧
    (g.sweep p).entries.Sublist g.entries ∧
    ∀ e ∈ g.entries, p e.2 e.1 = false → e ∈ (g.sweep p).entries := by
  refine ⟨?_, ?_, ?_, ?_⟩
  · rw [Group.sweep, Group.some]
    refine List.any_eq_false.mpr ?_
    intro x hx
    have := (List.mem_filter.mp hx).2
    simp only [Bool.not_eq_true'] at this
    simp [this]
  · rw [Group.sweep, Group.size, Group.size]
    exact length_filter_not_add (fun e => p e.2 e.1) g.entries
  · exact List.filter_sublist _
  · intro e he hp
    rw [Group.sweep]
    exact List.mem_filter.mpr ⟨he, by simp [hp]⟩

/-- C3 witness: the source's own `sweep` example — sweeping values `> 10`
from `{1 ↦ 10, 2 ↦ 15, 3 ↦ 20}` leaves no satisfying entry and keeps
`(1, 10)`. -/
theorem sweep_spec_witness :
    (gC3.sweep (fun v _ => decide (10 < v))).some (fun v _ => decide (10 < v)) = false ∧
    (1, 10) ∈ (gC3.sweep (fun v _ => decide (10 < v))).entries :=
  ⟨(sweep_spec gC3 (fun v _ => decide (10 < v))).1,
    (sweep_spec gC3 (fun v _ => decide (10 < v))).2.2.2 (1, 10) (by decide) (by decide)⟩

/-- C4: `fallback k gen` returns the existing value, leaves the group
unchanged and does not invoke the generator (invocation count 0) when `k` is
present; otherwise it invokes the generator once, inserts the produced value
under `k` and returns it.  Consequently a second `fallback` with the same key
returns the same value and the same group with the generator not invoked
again. -/
theorem fallback_spec (g : Group K V) (k : K) (gen : K → Group K V → V) :
    (g.fallback k gen
        = if g.has k then (g.get? k, g, 0)
          else (Option.some (gen k g), g.set k (gen k g), 1)) ∧
    ((g.fallback k gen).2.1).fallback k gen
        = ((g.fallback k gen).1, (g.fallback k gen).2.1, 0) := by
  have hget : g.has k = false → (g.set k (gen k g)).get? k = Option.some (gen k g) := by
    intro _
    rw [Group.get?_set, if_pos rfl]
  constructor
  · by_cases h : g.has k
    · simp [Group.fallback, h]
    · have h' : g.has k = false := by simpa using h
      simp [Group.fallback, h', hget h']
  · by_cases h : g.has k
    · simp [Group.fallback, h]
    · have h' : g.has k = false := by simpa using h
      have h2 : (g.set k (gen k g)).has k = true := Group.has_set_self g k (gen k g)
      simp [Group.fallback, h', h2, hget h']

/-- C5: `concact` merges the argument groups into the receiver in argument
order with later-wins lookup: for every key `k`, the merged group's value at
`k` is the value of the last argument group containing `k` (a `findSome?`
over the reversed argument list), falling back to the receiver's own value.
The hypothesis records the JS `Map` invariant that each argument group's
keys are pairwise distinct. -/
theorem concact_get? (g : Group K V) (gs : List (Group K V)) (k : K)
    (H : ∀ h ∈ gs, (h.entries.map Prod.fst).Nodup) :
    (g.concact gs).get? k
      = (gs.reverse.findSome? (fun h => h.get? k)).or (g.get? k) := by
  revert H
  induction gs generalizing g with
  | nil => intro _; rfl
  | cons h tl ih =>
    intro H
    have hh : (h.entries.map Prod.fst).Nodup := H h (List.mem_cons_self h tl)
    have htl : ∀ x ∈ tl, (x.entries.map Prod.fst).Nodup :=
      fun x hx => H x (List.mem_cons_of_mem h hx)
    have hstep : g.concact (h :: tl)
        = (h.entries.foldl (fun a e => a.set e.1 e.2) g).concact tl := by
      rw [Group.concact, Group.concact, List.foldl_cons]
    have hone : List.findSome? (fun h' : Group K V => h'.get? k) [h] = h.get? k := by
      rw [List.findSome?_cons]
      cases h.get? k <;> simp [List.findSome?]
    rw [hstep, ih _ htl, foldl_set_get?, reverse_find?_of_nodup _ _ hh,
      List.reverse_cons, List.findSome?_append, Option.or_assoc, hone]
    rfl

/-- C5 witness: the spec scenario — concatenating `{0 ↦ 1}` with
`{0 ↦ 2, 1 ↦ 3}` gives a group whose lookups are `0 ↦ 2` (later value wins)
and `1 ↦ 3`. -/
theorem concact_get?_witness :
    (gC5a.concact [gC5b]).get? 0 = Option.some 2 ∧
    (gC5a.concact [gC5b]).get? 1 = Option.some 3 := by
  constructor
  · rw [concact_get? gC5a [gC5b] 0 (by decide)]
    decide
  · rw [concact_get? gC5a [gC5b] 1 (by decide)]
    decide

/-- C6: every callback-taking operation invoked with a non-callable argument
(modelled as `none`) returns the `InvalidArgument` error, and for the
operations that can mutate (`each`, `sweep`, `fallback`) the group after the
call is the unchanged receiver. -/
theorem invalid_callback_rejected (g : Group K V) (k : K) :
    g.eachRun none = (Except.error GroupError.invalidArgument, g) ∧
    g.findRun none = Except.error GroupError.invalidArgument ∧
    g.filterRun none = Except.error GroupError.invalidArgument ∧
    g.mapRun (none : Option (V → K → V)) = Except.error GroupError.invalidArgument ∧
    g.findKeyRun none = Except.error GroupError.invalidArgument ∧
    g.everyRun none = Except.error GroupError.invalidArgument ∧
    g.someRun none = Except.error GroupError.invalidArgument ∧
    g.sweepRun none = (Except.error GroupError.invalidArgument, g) ∧
    g.fallbackRun k none = (Except.error GroupError.invalidArgument, g) :=
  ⟨rfl, rfl, rfl, rfl, rfl, rfl, rfl, rfl, rfl⟩

/-- C7: every entry of the group returned by `filter p` satisfies `p`:
`(g.filter p).every p` is true for every group and predicate. -/
theorem filter_every (g : Group K V) (p : V → K → Bool) :
    (g.filter p).every p = true :=
  filter_every_aux p g.entries (Group.mk []) rfl

/-- C8: `map f` returns a new group whose entries are the original entries
with each value replaced by `f value key` — same keys in the same order — so
its size and key list agree with the original's.  The hypothesis records the
JS `Map` invariant that the receiver's keys are pairwise distinct. -/
theorem map_preserves_keys (g : Group K V) (f : V → K → W)
    (h : (g.entries.map Prod.fst).Nodup) :
    (g.map f).entries = g.entries.map (fun e => (e.1, f e.2 e.1)) ∧
    (g.map f).size = g.size ∧
    (g.map f).keysList = g.keysList := by
  have hmain : (g.map f).entries = g.entries.map (fun e => (e.1, f e.2 e.1)) := by
    have hfresh := foldl_set_fresh (g.entries.map (fun e => (e.1, f e.2 e.1)))
      (Group.mk []) (fun e _ => rfl) (by simpa [List.map_map, Function.comp] using h)
    rw [List.foldl_map] at hfresh
    simpa [Group.map] using hfresh
  refine ⟨hmain, ?_, ?_⟩
  · rw [Group.size, Group.size, hmain, List.length_map]
  · rw [Group.keysList, Group.keysList, hmain, List.map_map]
    rfl

/-- C8 witness: mapping `v ↦ v + 1` over `{1 ↦ 10, 2 ↦ 20}` yields entries
`[(1, 11), (2, 21)]`, size 2, and the same key list `[1, 2]`. -/
theorem map_preserves_keys_witness :
    (gC8.map (fun v _ => v + 1)).entries = [(1, 11), (2, 21)] ∧
    (gC8.map (fun v _ => v + 1)).size = 2 ∧
    (gC8.map (fun v _ => v + 1)).keysList = [1, 2] :=
  map_preserves_keys gC8 (fun v _ => v + 1) (by decide)

/-- C9: `first` and `last` never validate the amount argument: a non-number
argument (a string, null, ...) fails the `typeof amount === 'number'` test
and takes the same scalar branch as the omitted argument, returning the
single leading (resp. trailing) value; no error is possible — the operations
are total. -/
theorem first_last_amount_not_number (g : Group K V) :
    g.first JsVal.other = g.first JsVal.undef ∧
    g.last JsVal.other = g.last JsVal.undef ∧
    g.first JsVal.undef = FirstLast.one g.valuesList.head? ∧
    g.last JsVal.undef = FirstLast.one g.valuesList.getLast? :=
  ⟨rfl, rfl, rfl, rfl⟩

/-- C10: `fallback` on an absent key appends the generated entry at the end:
the updated entry list is the old one with `(k, gen k g)` appended (so every
pre-existing entry keeps its position), and `keyAt (size - 1)` on the updated
group returns `k`. -/
theorem fallback_appends (g : Group K V) (k : K) (gen : K → Group K V → V)
    (h : g.has k = false) :
    ((g.fallback k gen).2.1).entries = g.entries ++ [(k, gen k g)] ∧
    Group.keyAt ((g.fallback k gen).2.1)
        (JsVal.num (JsNumber.int ((((g.fallback k gen).2.1).size : Int) - 1)))
      = Except.ok (Option.some k) := by
  have hent : ((g.fallback k gen).2.1).entries = g.entries ++ [(k, gen k g)] := by
    simp [Group.fallback, h, Group.set_entries_of_not_has g k (gen k g) h]
  refine ⟨hent, ?_⟩
  have hkeys : ((g.fallback k gen).2.1).keysList = g.keysList ++ [k] := by
    rw [Group.keysList, hent]
    simp [Group.keysList]
  have hsize : ((((g.fallback k gen).2.1).size : Int)) - 1 = (g.keysList.length : Int) := by
    rw [Group.size, hent, List.length_append]
    rw [Group.keysList, List.length_map]
    simp only [List.length_singleton]
    push_cast
    ring
  simp only [Group.keyAt, JsNumber.toIntTrunc]
  rw [hsize, hkeys, jsAt]
  have h0 : ¬((g.keysList.length : Int) < 0) := by omega
  simp [h0, Int.toNat_natCast, List.getElem?_concat_length]

/-- C10 witness: on `{1 ↦ 10}`, `fallback 2 (fun _ _ => 99)` appends the
entry `(2, 99)` and `keyAt (size - 1)` returns the key `2`. -/
theorem fallback_appends_witness :
    ((gC10.fallback 2 (fun _ _ => 99)).2.1).entries = [(1, 10), (2, 99)] ∧
    Group.keyAt ((gC10.fallback 2 (fun _ _ => 99)).2.1)
        (JsVal.num (JsNumber.int ((((gC10.fallback 2 (fun _ _ => 99)).2.1).size : Int) - 1)))
      = Except.ok (Option.some 2) :=
  fallback_appends gC10 2 (fun _ _ => 99) (by decide)

end TsCord
